import Mathlib

/-!
Verification of the JSON→ZIP client utilities.

The development shallowly embeds the repository's JavaScript utility
functions (`fileUtils`: JSON/file validation, batch parsing, filename
utilities; the `DropZone` component's per-file validation; the API
client's error handling and option building) as executable Lean
definitions, and proves the specified properties about them.

JavaScript runtime values are modelled by the inductive type `JSTop`
(null, undefined, booleans, numbers as rationals plus a distinguished
NaN, strings, arrays, objects).  The platform's `JSON.parse` is modelled
by `jsonParse`, a fuel-based recursive-descent parser implementing the
JSON grammar (whitespace, literals, strict number syntax, strings with
escapes, arrays, objects).  Surrogate-pair combination in `\u` escapes
is not modelled (no claim depends on it).
-/

/-- A JavaScript runtime value. A finite number is represented exactly in
scientific form as `mantissa · 10 ^ exp10` (so `jsNum 6 0` is the number
`6`); IEEE-754 rounding is not modelled, and NaN has its own constructor.
`-0` is identified with `0` (no property under verification distinguishes
them). -/
inductive JSTop where
  | jsNull : JSTop
  | jsUndefined : JSTop
  | jsBool : Bool → JSTop
  | jsNum : (mantissa : Int) → (exp10 : Int) → JSTop
  | jsNaN : JSTop
  | jsStr : String → JSTop
  | jsArr : List JSTop → JSTop
  | jsObj : List (String × JSTop) → JSTop

open JSTop

/-- JavaScript truthiness: `false`, `0`, `NaN`, `""`, `null`, `undefined`
are falsy; every object and array is truthy. -/
def jsTruthy : JSTop → Bool
  | jsNull => false
  | jsUndefined => false
  | jsBool b => b
  | jsNum m _ => decide (m ≠ 0)
  | jsNaN => false
  | jsStr s => decide (s ≠ "")
  | jsArr _ => true
  | jsObj _ => true

/-- JavaScript `typeof`. Note `typeof null` is `"object"`, as are arrays. -/
def jsTypeof : JSTop → String
  | jsNull => "object"
  | jsUndefined => "undefined"
  | jsBool _ => "boolean"
  | jsNum _ _ => "number"
  | jsNaN => "number"
  | jsStr _ => "string"
  | jsArr _ => "object"
  | jsObj _ => "object"

/-- JavaScript property access `v[k]`: own properties of plain objects;
any absent property (and any property of a non-object primitive, such as
`true.isValid`) is `undefined`. Inherited prototype properties are not
modelled (none are accessed by the code under verification). -/
def jsGet (v : JSTop) (k : String) : JSTop :=
  match v with
  | jsObj fields => (fields.lookup k).getD jsUndefined
  | _ => jsUndefined

/-! ### The JSON grammar (model of the platform's `JSON.parse`) -/

/-- JSON insignificant whitespace. -/
def isJsonWs (c : Char) : Bool :=
  c = ' ' || c = '\t' || c = '\n' || c = '\r'

def skipWs (l : List Char) : List Char :=
  l.dropWhile isJsonWs

/-- The `\x7b` character, written by code so that no brace appears in a
character literal. -/
def lbraceChar : Char := Char.ofNat 123

/-- The `\x7d` character. -/
def rbraceChar : Char := Char.ofNat 125

def isHexDigitChar (c : Char) : Bool :=
  c.isDigit || ('a' ≤ c && c ≤ 'f') || ('A' ≤ c && c ≤ 'F')

def hexVal (c : Char) : Nat :=
  if c.isDigit then c.toNat - '0'.toNat
  else if 'a' ≤ c && c ≤ 'f' then c.toNat - 'a'.toNat + 10
  else if 'A' ≤ c && c ≤ 'F' then c.toNat - 'A'.toNat + 10
  else 0

/-- The single-character escapes of the JSON string grammar. -/
def escapeChar (e : Char) : Option Char :=
  match e with
  | '"' => some '"'
  | '\\' => some '\\'
  | '/' => some '/'
  | 'b' => some (Char.ofNat 8)
  | 'f' => some (Char.ofNat 12)
  | 'n' => some '\n'
  | 'r' => some '\r'
  | 't' => some '\t'
  | _ => none

/-- Parse the remainder of a JSON string literal (after the opening
quote), handling the escape sequences of the JSON grammar. -/
def parseStringRest : List Char → Option (String × List Char)
  | [] => none
  | '"' :: rest => some ("", rest)
  | '\\' :: 'u' :: h1 :: h2 :: h3 :: h4 :: rest =>
    if isHexDigitChar h1 && isHexDigitChar h2 &&
       isHexDigitChar h3 && isHexDigitChar h4 then
      let c := Char.ofNat
        (((hexVal h1 * 16 + hexVal h2) * 16 + hexVal h3) * 16 + hexVal h4)
      (parseStringRest rest).map (fun (s, r) => (String.mk (c :: s.data), r))
    else none
  | '\\' :: e :: rest =>
    (escapeChar e).bind fun c =>
      (parseStringRest rest).map (fun (s, r) => (String.mk (c :: s.data), r))
  | c :: rest =>
    -- Control characters are rejected by JSON.parse.
    if c.toNat < 32 then none
    else (parseStringRest rest).map (fun (s, r) => (String.mk (c :: s.data), r))

def digitsToNat (ds : List Char) : Nat :=
  ds.foldl (fun acc c => acc * 10 + (c.toNat - '0'.toNat)) 0

/-- Parse a JSON number (strict grammar: no leading `+`, no leading zeros,
a fraction or exponent part must contain at least one digit). -/
def parseNumber (l : List Char) : Option (JSTop × List Char) :=
  let (neg, l1) := match l with
    | '-' :: rest => (true, rest)
    | _ => (false, l)
  let intPart : Option (List Char × List Char) := match l1 with
    | '0' :: rest => some (['0'], rest)
    | c :: rest =>
      if c.isDigit && c ≠ '0' then
        some (c :: rest.takeWhile Char.isDigit, rest.dropWhile Char.isDigit)
      else none
    | [] => none
  intPart.bind fun (ids, l2) =>
  let fracPart : Option (List Char × List Char) := match l2 with
    | '.' :: rest =>
      let fs := rest.takeWhile Char.isDigit
      if fs.isEmpty then none else some (fs, rest.dropWhile Char.isDigit)
    | _ => some ([], l2)
  fracPart.bind fun (fds, l3) =>
  let expPart : Option (Int × List Char) := match l3 with
    | c :: rest =>
      if c = 'e' || c = 'E' then
        let (esign, rest') : Bool × List Char := match rest with
          | '-' :: r => (true, r)
          | '+' :: r => (false, r)
          | _ => (false, rest)
        let es := rest'.takeWhile Char.isDigit
        if es.isEmpty then none
        else
          let e : Int := Int.ofNat (digitsToNat es)
          some (if esign then -e else e, rest'.dropWhile Char.isDigit)
      else some (0, l3)
    | [] => some (0, l3)
  expPart.map fun (ex, l4) =>
  let m : Int := Int.ofNat (digitsToNat (ids ++ fds))
  let e10 : Int := ex - Int.ofNat fds.length
  (jsNum (if neg then -m else m) e10, l4)

mutual

/-- Parse one JSON value, returning it with the unconsumed remainder. -/
def parseValue : Nat → List Char → Option (JSTop × List Char)
  | 0, _ => none
  | Nat.succ fuel, l =>
    match skipWs l with
    | 't' :: 'r' :: 'u' :: 'e' :: rest => some (jsBool true, rest)
    | 'f' :: 'a' :: 'l' :: 's' :: 'e' :: rest => some (jsBool false, rest)
    | 'n' :: 'u' :: 'l' :: 'l' :: rest => some (jsNull, rest)
    | '"' :: rest => (parseStringRest rest).map (fun (s, r) => (jsStr s, r))
    | '[' :: rest =>
      (match skipWs rest with
       | ']' :: rest' => some (jsArr [], rest')
       | _ => (parseItems fuel rest).map (fun (vs, r) => (jsArr vs, r)))
    | c :: rest =>
      if c = lbraceChar then
        match skipWs rest with
        | c' :: rest' =>
          if c' = rbraceChar then some (jsObj [], rest')
          else (parseMembers fuel (c' :: rest')).map (fun (ms, r) => (jsObj ms, r))
        | [] => none
      else parseNumber (c :: rest)
    | [] => none

/-- Parse the comma-separated items of a non-empty array, consuming the
closing bracket. -/
def parseItems : Nat → List Char → Option (List JSTop × List Char)
  | 0, _ => none
  | Nat.succ fuel, l =>
    (parseValue fuel l).bind fun (v, r) =>
    match skipWs r with
    | ',' :: rest => (parseItems fuel rest).map (fun (vs, r') => (v :: vs, r'))
    | ']' :: rest => some ([v], rest)
    | _ => none

/-- Parse the comma-separated members of a non-empty object, consuming
the closing brace. -/
def parseMembers : Nat → List Char → Option (List (String × JSTop) × List Char)
  | 0, _ => none
  | Nat.succ fuel, l =>
    match skipWs l with
    | '"' :: rest =>
      (parseStringRest rest).bind fun (k, r) =>
      match skipWs r with
      | ':' :: rest' =>
        (parseValue fuel rest').bind fun (v, r') =>
        (match skipWs r' with
         | ',' :: rest'' =>
           (parseMembers fuel rest'').map (fun (ms, r'') => ((k, v) :: ms, r''))
         | c :: rest'' =>
           if c = rbraceChar then some ([(k, v)], rest'') else none
         | [] => none)
      | _ => none
    | _ => none

end

/-- Model of the platform's `JSON.parse`, as an `Option`: `none` when
`JSON.parse` would throw a `SyntaxError`. -/
def jsonParse (s : String) : Option JSTop :=
  match parseValue (s.length + 1) s.data with
  | some (v, rest) => if (skipWs rest).isEmpty then some v else none
  | none => none

/-! ### List/string helpers used by the embedding and its theorems -/

/-- `startsWithL needle hay`: `needle` is an initial segment of `hay`. -/
def startsWithL : List Char → List Char → Bool
  | [], _ => true
  | _ :: _, [] => false
  | a :: as, b :: bs => a = b && startsWithL as bs

/-- `containsSubL needle hay`: `needle` occurs contiguously in `hay`
(the model of JavaScript's `String.prototype.includes`). -/
def containsSubL (needle : List Char) : List Char → Bool
  | [] => startsWithL needle []
  | c :: rest => startsWithL needle (c :: rest) || containsSubL needle rest

/-- String form of `containsSubL`. -/
def containsSubStr (needle hay : String) : Bool :=
  containsSubL needle.data hay.data

/-- The model of JavaScript's `String.prototype.split` with a
one-character separator: `splitChar '.' "a..b" = ["a", "", "b"]`,
`splitChar '.' "" = [""]`. -/
def splitChar (sep : Char) : List Char → List (List Char)
  | [] => [[]]
  | c :: rest =>
    if c = sep then [] :: splitChar sep rest
    else
      match splitChar sep rest with
      | h :: t => (c :: h) :: t
      | [] => [[c]]

/-- The model of JavaScript's `String.prototype.lastIndexOf` for a
one-character search string: index of the last occurrence, `-1` if none. -/
def lastIndexOfChar (c : Char) (l : List Char) : Int :=
  match (l.reverse.findIdx? (fun x => x = c)) with
  | some i => Int.ofNat (l.length - 1 - i)
  | none => -1

/-! ### fileUtils (src/unnamed/part_000) -/

/-- `isValidJson(jsonString)`: `JSON.parse` inside try/catch. -/
def isValidJson (jsonString : String) : Bool :=
  (jsonParse jsonString).isSome

/-- The `{isValid, errors}` result produced by `validateJsonData`. -/
structure ValidationResult where
  isValid : Bool
  errors : List String
deriving DecidableEq, Repr

/-- `validateJsonData(data)` from fileUtils: falsy input is rejected as
missing, string input is parsed (`data = JSON.parse(data)`), then the
result is rejected when `typeof data !== 'object'`. -/
def validateJsonData (data : JSTop) : ValidationResult :=
  if jsTruthy data = false then
    ⟨false, ["Data is required"]⟩
  else
    let afterParse : Except (List String) JSTop :=
      match data with
      | JSTop.jsStr s =>
        if isValidJson s = false then Except.error ["Invalid JSON format"]
        else
          match jsonParse s with
          | some parsed => Except.ok parsed
          | none => Except.error ["Failed to parse JSON"]
      | _ => Except.ok data
    match afterParse with
    | Except.error errors => ⟨false, errors⟩
    | Except.ok d =>
      let errors : List String :=
        if jsTypeof d ≠ "object" then ["JSON must be an object or array"] else []
      ⟨errors.isEmpty, errors⟩

/-- A file handed to the utilities: its `name`, declared MIME `type`,
`size` in bytes, and text `content`. `readFileAsText` is modelled as
resolving with `content` (read failures are environmental and outside
the verified properties). -/
structure JsFile where
  name : String
  type : String
  size : Nat
  content : String
deriving DecidableEq, Repr

/-- `validateFileType(file, allowedTypes)`: membership of the declared
MIME type in the allow-list (default `['application/json', 'text/plain']`). -/
def validateFileType (file : JsFile)
    (allowedTypes : List String := ["application/json", "text/plain"]) : Bool :=
  allowedTypes.contains file.type

/-- `validateFileSize(file, maxSize)`: size within the limit
(default 10 MiB). -/
def validateFileSize (file : JsFile)
    (maxSize : Nat := 10 * 1024 * 1024) : Bool :=
  file.size ≤ maxSize

/-- The `{filename, data, size}` record built by `parseMultipleJsonFiles`. -/
structure ParsedRecord where
  filename : String
  data : JSTop
  size : Nat

/-- The loop body of `parseMultipleJsonFiles` for one file: the `try`
block throws on the first failed check, and the surrounding `catch`
rethrows with the filename prepended. The `JSON.parse` at the push is
unreachable as a failure (validation just succeeded); its throw branch
is kept with the platform's generic message. -/
def processFile (f : JsFile) : Except String ParsedRecord :=
  let inner : Except String ParsedRecord :=
    if validateFileType f = false then
      Except.error ("Invalid file type: " ++ f.type)
    else if validateFileSize f = false then
      Except.error "File size exceeds limit"
    else
      let content := f.content
      let validation := validateJsonData (JSTop.jsStr content)
      if validation.isValid = false then
        Except.error ("Invalid JSON in " ++ f.name ++ ": " ++
          String.intercalate ", " validation.errors)
      else
        match jsonParse content with
        | some v => Except.ok ⟨f.name, v, f.size⟩
        | none => Except.error "Unexpected token"
  inner.mapError (fun m => "Error processing " ++ f.name ++ ": " ++ m)

/-- `parseMultipleJsonFiles(files)`: sequential `for … of` loop that
throws out of the whole operation on the first failing file and
otherwise pushes one record per file, in input order. -/
def parseMultipleJsonFiles : List JsFile → Except String (List ParsedRecord)
  | [] => Except.ok []
  | f :: rest =>
    match processFile f with
    | Except.error e => Except.error e
    | Except.ok r => (parseMultipleJsonFiles rest).map (fun rs => r :: rs)

/-- Characters kept verbatim by `sanitizeFilename`'s first replacement:
the class `[a-z0-9.-]` with the `i` flag. -/
def isAllowedFilenameChar (c : Char) : Bool :=
  ('a' ≤ c && c ≤ 'z') || ('A' ≤ c && c ≤ 'Z') || c.isDigit || c = '.' || c = '-'

/-- `.replace(/[^a-z0-9.-]/gi, '_')`. -/
def replaceDisallowed (l : List Char) : List Char :=
  l.map (fun c => if isAllowedFilenameChar c then c else '_')

/-- `.replace(/_{2,}/g, '_')`: every maximal run of underscores becomes a
single underscore. -/
def collapseU : List Char → List Char
  | [] => []
  | [c] => [c]
  | c1 :: c2 :: rest =>
    if c1 = '_' && c2 = '_' then collapseU (c2 :: rest)
    else c1 :: collapseU (c2 :: rest)

/-- `.replace(/^_|_$/g, '')`: one leading and one trailing underscore
are removed (the anchors match at most once each). -/
def trimOuterU (l : List Char) : List Char :=
  let l1 := if l.head? = some '_' then l.tail else l
  if l1.getLast? = some '_' then l1.dropLast else l1

/-- `sanitizeFilename(filename)`: the three chained regex replacements. -/
def sanitizeFilename (filename : String) : String :=
  String.mk (trimOuterU (collapseU (replaceDisallowed filename.data)))

/-- `getFileExtension(filename)`:
`filename.split('.').pop()?.toLowerCase() || ''`. `split` always yields a
non-empty array, so `pop()` is the last segment; `|| ''` maps an empty
result to itself. -/
def getFileExtension (filename : String) : String :=
  let popped := ((splitChar '.' filename.data).getLastD []).map Char.toLower
  if (String.mk popped) = "" then "" else String.mk popped

/-- `removeFileExtension(filename)`: cut at `lastIndexOf('.')` when that
index is positive, otherwise return the name unchanged. -/
def removeFileExtension (filename : String) : String :=
  let lastDotIndex := lastIndexOfChar '.' filename.data
  if lastDotIndex > 0 then String.mk (filename.data.take lastDotIndex.toNat)
  else filename

/-! ### DropZone.validateFiles (src/src/components/ui/DropZone.jsx) -/

/-- One entry of DropZone's `fileErrors`: `{file: file.name, message}`.
The `message` field holds the JavaScript value that was pushed
(`typeValidation.error` / `sizeValidation.error`). -/
structure DropZoneFileError where
  file : String
  message : JSTop

/-- `validateFiles(fileList)` from DropZone. The component calls the
boolean-returning `validateFileType`/`validateFileSize` imported from
fileUtils and then reads `.isValid` and `.error` off the returned
booleans; those property accesses are modelled by `jsGet` on a
`jsBool`, which (as in JavaScript) yields `undefined`. -/
def dropZoneValidateFiles (acceptedTypes : List String) (maxFileSize : Nat) :
    List JsFile → List JsFile × List DropZoneFileError
  | [] => ([], [])
  | file :: rest =>
    let typeValidation : JSTop := jsBool (validateFileType file acceptedTypes)
    let sizeValidation : JSTop := jsBool (validateFileSize file maxFileSize)
    let (validFiles, fileErrors) := dropZoneValidateFiles acceptedTypes maxFileSize rest
    if jsTruthy (jsGet typeValidation "isValid") = false then
      (validFiles, ⟨file.name, jsGet typeValidation "error"⟩ :: fileErrors)
    else if jsTruthy (jsGet sizeValidation "isValid") = false then
      (validFiles, ⟨file.name, jsGet sizeValidation "error"⟩ :: fileErrors)
    else
      (file :: validFiles, fileErrors)

/-! ### API client (second module embedded in DropZone.jsx) -/

/-- `REQUEST_TIMEOUT`: the fixed local timeout, in milliseconds. -/
def REQUEST_TIMEOUT : Nat := 30000

/-- The `ApiError` payload: `message` (the value passed to the
constructor), HTTP `status`, and `data` (default `null`). -/
structure ApiErrorS where
  message : JSTop
  status : Nat
  data : JSTop

/-- A rejection reaching an operation's `catch` block: a plain `Error`,
a `TypeError` (what `fetch` rejects with on network failure), or an
`ApiError`. -/
inductive JsErr where
  | plainErr : String → JsErr
  | typeErr : String → JsErr
  | apiErr : ApiErrorS → JsErr

/-- The rejection produced by `fetchWithTimeout`'s timer branch:
`new Error('Request timeout')`. -/
def timeoutRejection : JsErr := JsErr.plainErr "Request timeout"

/-- The rejection produced by `fetch` on network failure:
`TypeError('Failed to fetch')`. -/
def networkRejection : JsErr := JsErr.typeErr "Failed to fetch"

/-- The `catch` block shared by every operation:
`throw error instanceof ApiError ? error : new ApiError(<generic message>, 500)`. -/
def wrapOperationError (opMessage : String) (e : JsErr) : JsErr :=
  match e with
  | JsErr.apiErr _ => e
  | _ => JsErr.apiErr ⟨jsStr opMessage, 500, jsNull⟩

/-- An HTTP response as `handleResponse` observes it: `ok` (status in
the 2xx range), numeric `status`, the `content-type` header (absent =
`none`), and the body text. `response.json()` is `JSON.parse` applied to
the body text; `response.text()` resolves with the body text. -/
structure HttpResponse where
  ok : Bool
  status : Nat
  contentType : Option String
  textBody : String

/-- `contentType && contentType.includes('application/json')`. -/
def isJsonContentType : Option String → Bool
  | none => false
  | some ct => containsSubStr "application/json" ct

/-- `handleResponse(response)`: pass 2xx responses through; otherwise
build the error message (the JSON body's `message` field when the
content-type indicates JSON, the body text otherwise, with
`HTTP error! status: <status>` as the fallback for falsy/unparsable
bodies) and throw `ApiError(message, status, errorData)`. -/
def handleResponse (r : HttpResponse) : Except ApiErrorS HttpResponse :=
  if r.ok then Except.ok r
  else
    let baseMessage := "HTTP error! status: " ++ toString r.status
    let msgData : JSTop × JSTop :=
      if isJsonContentType r.contentType then
        match jsonParse r.textBody with
        | some errorData =>
          (if jsTruthy (jsGet errorData "message") then jsGet errorData "message"
           else jsStr baseMessage,
           errorData)
        | none =>
          -- response.json() threw: errorData keeps its initial null.
          (jsStr baseMessage, jsNull)
      else
        (jsStr (if r.textBody = "" then baseMessage else r.textBody), jsNull)
    Except.error ⟨msgData.1, r.status, msgData.2⟩

/-- JavaScript object-literal update `m[k] = v` used to model spread:
overwrite the key when present, append it otherwise. -/
def setKey (m : List (String × JSTop)) (k : String) (v : JSTop) :
    List (String × JSTop) :=
  if (m.lookup k).isSome then
    m.map (fun p => if p.1 = k then (k, v) else p)
  else m ++ [(k, v)]

/-- `{...defaults, ...o}`: assign each own key of `o`, in order, over the
defaults. -/
def spreadInto (m : List (String × JSTop)) (o : List (String × JSTop)) :
    List (String × JSTop) :=
  o.foldl (fun acc p => setKey acc p.1 p.2) m

/-- The `options` object sent by `convertJsonToZip`:
`{compression: options.compression || 'DEFLATE', compressionLevel:
options.compressionLevel || 6, createFolders: options.createFolders ||
false, ...options}`. -/
def buildSingleOptions (o : List (String × JSTop)) : List (String × JSTop) :=
  let getO (k : String) : JSTop := (o.lookup k).getD jsUndefined
  let defaults : List (String × JSTop) :=
    [("compression",
       if jsTruthy (getO "compression") then getO "compression" else jsStr "DEFLATE"),
     ("compressionLevel",
       if jsTruthy (getO "compressionLevel") then getO "compressionLevel" else jsNum 6 0),
     ("createFolders",
       if jsTruthy (getO "createFolders") then getO "createFolders" else jsBool false)]
  spreadInto defaults o

/-- The `options` object sent by `convertMultipleJsonToZip`:
`{compression: … || 'DEFLATE', compressionLevel: … || 6,
createSeparateFiles: … || true, fileNaming: … || 'auto', ...options}`. -/
def buildBatchOptions (o : List (String × JSTop)) : List (String × JSTop) :=
  let getO (k : String) : JSTop := (o.lookup k).getD jsUndefined
  let defaults : List (String × JSTop) :=
    [("compression",
       if jsTruthy (getO "compression") then getO "compression" else jsStr "DEFLATE"),
     ("compressionLevel",
       if jsTruthy (getO "compressionLevel") then getO "compressionLevel" else jsNum 6 0),
     ("createSeparateFiles",
       if jsTruthy (getO "createSeparateFiles") then getO "createSeparateFiles" else jsBool true),
     ("fileNaming",
       if jsTruthy (getO "fileNaming") then getO "fileNaming" else jsStr "auto")]
  spreadInto defaults o

/-! ### Remaining model-level definitions used in theorem statements -/

/-- Values whose parse result the spec calls "an object or array", plus
JSON `null` (whose `typeof` is also `"object"`). Used to state the
amended C1. -/
def isObjectArrayOrNull : JSTop → Bool
  | jsObj _ => true
  | jsArr _ => true
  | jsNull => true
  | _ => false

/-- A file passes the three per-file checks of `parseMultipleJsonFiles`
(with the fileUtils defaults): MIME type, size, and JSON validation of
its text content. -/
def passesAllChecks (f : JsFile) : Bool :=
  validateFileType f && validateFileSize f &&
    (validateJsonData (jsStr f.content)).isValid

/-- The record `parseMultipleJsonFiles` pushes for a file that passes
all checks. -/
def recordOf (f : JsFile) : ParsedRecord :=
  ⟨f.name, (jsonParse f.content).getD jsNull, f.size⟩

/-- No two consecutive underscores occur in the character list. -/
def noDoubleU : List Char → Bool
  | c1 :: c2 :: rest => !(c1 = '_' && c2 = '_') && noDoubleU (c2 :: rest)
  | _ => true

/-! ### Evaluation checks of the embedding on concrete inputs -/

example : jsonParse "null" = some jsNull := rfl
example : jsonParse "not json" = none := rfl
example : jsonParse " [1, 2.5, \"a\"] " =
    some (jsArr [jsNum 1 0, jsNum 25 (-1), jsStr "a"]) := rfl
example : jsonParse "\x7b\"a\": 1\x7d" = some (jsObj [("a", jsNum 1 0)]) := rfl
example : jsonParse "01" = none := rfl
example : jsonParse "-1.5e2" = some (jsNum (-15) 1) := rfl
example : sanitizeFilename "my file!!.json" = "my_file_.json" := rfl
example : getFileExtension "archive.tar.gz" = "gz" := rfl
example : getFileExtension "noext" = "noext" := rfl
example : removeFileExtension "archive.tar.gz" = "archive.tar" := rfl
example : removeFileExtension "noext" = "noext" := rfl
example : validateJsonData (jsStr "null") = ⟨true, []⟩ := rfl
example : validateJsonData jsNull = ⟨false, ["Data is required"]⟩ := rfl
example : validateJsonData (jsStr "not json") =
    ⟨false, ["Invalid JSON format"]⟩ := rfl
example : validateJsonData (jsStr "5") =
    ⟨false, ["JSON must be an object or array"]⟩ := rfl
example : (buildSingleOptions [("compressionLevel", jsNum 0 0)]).lookup
    "compressionLevel" = some (jsNum 0 0) := rfl
example : (buildSingleOptions []).lookup "compressionLevel" =
    some (jsNum 6 0) := rfl
example : (buildBatchOptions [("createSeparateFiles", jsBool false)]).lookup
    "createSeparateFiles" = some (jsBool false) := rfl

/-! ### Helper lemmas -/

lemma jsTypeof_eq_object_iff (v : JSTop) :
    jsTypeof v = "object" ↔ isObjectArrayOrNull v = true := by
  cases v <;> simp [jsTypeof, isObjectArrayOrNull]

lemma validateJsonData_of_falsy (data : JSTop) (h : jsTruthy data = false) :
    validateJsonData data = ⟨false, ["Data is required"]⟩ := by
  simp [validateJsonData, h]

lemma validateJsonData_str_invalid (s : String) (hs : s ≠ "")
    (hp : jsonParse s = none) :
    validateJsonData (jsStr s) = ⟨false, ["Invalid JSON format"]⟩ := by
  simp [validateJsonData, jsTruthy, hs, isValidJson, hp]

lemma validateJsonData_str_parsed (s : String) (v : JSTop) (hs : s ≠ "")
    (hp : jsonParse s = some v) :
    validateJsonData (jsStr s) =
      if isObjectArrayOrNull v then ⟨true, []⟩
      else ⟨false, ["JSON must be an object or array"]⟩ := by
  have hv : isValidJson s = true := by simp [isValidJson, hp]
  by_cases hc : isObjectArrayOrNull v = true
  · have ht : jsTypeof v = "object" := (jsTypeof_eq_object_iff v).mpr hc
    simp [validateJsonData, jsTruthy, hs, hv, hp, ht, hc]
  · have ht : ¬ jsTypeof v = "object" := fun h =>
      hc ((jsTypeof_eq_object_iff v).mp h)
    simp [validateJsonData, jsTruthy, hs, hv, hp, ht, hc]

/-! ### Claims C1 and C10: validateJsonData -/

/-- C1 counterexample: the string `"null"` parses successfully to JSON
`null`, which is neither an object nor an array, yet `validateJsonData`
returns `{isValid: true, errors: []}` (JavaScript's `typeof null` is
`"object"`), contradicting the claimed contract. -/
theorem claim_C1_counterexample :
    jsonParse "null" = some jsNull ∧
    isObjectArrayOrNull jsNull = true ∧
    (∀ l, jsNull ≠ jsObj l) ∧ (∀ l, jsNull ≠ jsArr l) ∧
    validateJsonData (jsStr "null") = ⟨true, []⟩ ∧
    validateJsonData (jsStr "null") ≠ ⟨false, ["JSON must be an object or array"]⟩ := by
  refine ⟨rfl, rfl, fun l h => JSTop.noConfusion h, fun l h => JSTop.noConfusion h,
    rfl, by decide⟩

/-- C1 amended: `validateJsonData` satisfies the stated contract with one
amendment — a string input that parses to JSON `null` is *accepted* (the
`typeof data !== 'object'` check treats `null` as an object), so the
"JSON must be an object or array" rejection applies exactly to parse
results that are neither objects, arrays, nor `null`; likewise an
already-parsed truthy value is accepted iff it is an object or array. -/
theorem claim_C1_amended (data : JSTop) :
    (jsTruthy data = false → validateJsonData data = ⟨false, ["Data is required"]⟩) ∧
    (∀ s, data = jsStr s → s ≠ "" → jsonParse s = none →
      validateJsonData data = ⟨false, ["Invalid JSON format"]⟩) ∧
    (∀ s v, data = jsStr s → s ≠ "" → jsonParse s = some v →
      isObjectArrayOrNull v = false →
      validateJsonData data = ⟨false, ["JSON must be an object or array"]⟩) ∧
    (∀ s v, data = jsStr s → s ≠ "" → jsonParse s = some v →
      isObjectArrayOrNull v = true →
      validateJsonData data = ⟨true, []⟩) ∧
    (jsTruthy data = true → (∀ s, data ≠ jsStr s) →
      isObjectArrayOrNull data = false →
      validateJsonData data = ⟨false, ["JSON must be an object or array"]⟩) ∧
    (jsTruthy data = true → (∀ s, data ≠ jsStr s) →
      isObjectArrayOrNull data = true →
      validateJsonData data = ⟨true, []⟩) := by
  refine ⟨validateJsonData_of_falsy data, ?_, ?_, ?_, ?_, ?_⟩
  · rintro s rfl hs hp
    exact validateJsonData_str_invalid s hs hp
  · rintro s v rfl hs hp hc
    rw [validateJsonData_str_parsed s v hs hp, hc]
    simp
  · rintro s v rfl hs hp hc
    rw [validateJsonData_str_parsed s v hs hp, hc]
    simp
  · intro htru hnotstr hc
    have ht : ¬ jsTypeof data = "object" := fun h => by
      rw [(jsTypeof_eq_object_iff data).mp h] at hc
      cases hc
    cases data with
    | jsStr s => exact absurd rfl (hnotstr s)
    | _ => simp_all [validateJsonData, jsTruthy, jsTypeof]
  · intro htru hnotstr hc
    have ht : jsTypeof data = "object" := (jsTypeof_eq_object_iff data).mpr hc
    cases data with
    | jsStr s => exact absurd rfl (hnotstr s)
    | _ => simp_all [validateJsonData, jsTruthy, jsTypeof]

/-- C1 witness: the amended theorem applied at the inputs `null` (the
value) and `"null"` (the string). -/
theorem claim_C1_witness :
    validateJsonData jsNull = ⟨false, ["Data is required"]⟩ ∧
    validateJsonData (jsStr "null") = ⟨true, []⟩ :=
  ⟨(claim_C1_amended jsNull).1 rfl,
   (claim_C1_amended (jsStr "null")).2.2.2.1 "null" jsNull rfl (by decide) rfl rfl⟩

/-- C10: the falsy non-null inputs `0`, `false` and `NaN` are all
rejected by `validateJsonData` as `{isValid: false, errors: ["Data is
required"]}`, exactly like `null` — indistinguishable from missing
input. -/
theorem claim_C10_falsy_rejected :
    validateJsonData (jsNum 0 0) = ⟨false, ["Data is required"]⟩ ∧
    validateJsonData (jsBool false) = ⟨false, ["Data is required"]⟩ ∧
    validateJsonData jsNaN = ⟨false, ["Data is required"]⟩ ∧
    validateJsonData (jsNum 0 0) = validateJsonData jsNull ∧
    validateJsonData (jsBool false) = validateJsonData jsNull ∧
    validateJsonData jsNaN = validateJsonData jsNull :=
  ⟨rfl, rfl, rfl, rfl, rfl, rfl⟩

/-! ### Claims C2 and C3: parseMultipleJsonFiles -/

lemma jsonParse_isSome_of_valid (s : String)
    (h : (validateJsonData (jsStr s)).isValid = true) :
    (jsonParse s).isSome = true := by
  by_cases hs : s = ""
  · subst hs
    simp [validateJsonData, jsTruthy] at h
  by_cases hp : (jsonParse s).isSome = true
  · exact hp
  · have hnone : jsonParse s = none := by
      cases hj : jsonParse s with
      | none => rfl
      | some v => rw [hj] at hp; exact absurd rfl hp
    rw [validateJsonData_str_invalid s hs hnone] at h
    cases h

lemma processFile_ok_of_valid (f : JsFile) (h : passesAllChecks f = true) :
    processFile f = Except.ok (recordOf f) := by
  have ht : validateFileType f = true := by
    simp [passesAllChecks] at h; exact h.1.1
  have hz : validateFileSize f = true := by
    simp [passesAllChecks] at h; exact h.1.2
  have hv : (validateJsonData (jsStr f.content)).isValid = true := by
    simp [passesAllChecks] at h; exact h.2
  have hp : (jsonParse f.content).isSome = true := jsonParse_isSome_of_valid _ hv
  cases hj : jsonParse f.content with
  | none => rw [hj] at hp; cases hp
  | some v =>
    simp [processFile, ht, hz, hv, hj, Except.mapError, recordOf]

lemma processFile_error_of_invalid (f : JsFile) (h : passesAllChecks f = false) :
    ∃ inner, processFile f = Except.error ("Error processing " ++ f.name ++ ": " ++ inner) := by
  cases ht : validateFileType f with
  | false =>
    exact ⟨"Invalid file type: " ++ f.type, by simp [processFile, ht, Except.mapError]⟩
  | true =>
    cases hz : validateFileSize f with
    | false =>
      exact ⟨"File size exceeds limit", by simp [processFile, ht, hz, Except.mapError]⟩
    | true =>
      cases hv : (validateJsonData (jsStr f.content)).isValid with
      | false =>
        refine ⟨"Invalid JSON in " ++ f.name ++ ": " ++
          String.intercalate ", " (validateJsonData (jsStr f.content)).errors, ?_⟩
        simp [processFile, ht, hz, hv, Except.mapError]
      | true =>
        rw [passesAllChecks, ht, hz, hv] at h
        cases h

lemma startsWithL_self_append (n b : List Char) :
    startsWithL n (n ++ b) = true := by
  induction n with
  | nil => rfl
  | cons c cs ih => simp [startsWithL, ih]

lemma containsSubL_of_startsWithL (n hay : List Char)
    (h : startsWithL n hay = true) : containsSubL n hay = true := by
  cases hay with
  | nil => exact h
  | cons c rest =>
    have : containsSubL n (c :: rest) =
        (startsWithL n (c :: rest) || containsSubL n rest) := rfl
    rw [this, h, Bool.true_or]

lemma containsSubL_middle (n a b : List Char) :
    containsSubL n (a ++ n ++ b) = true := by
  induction a with
  | nil =>
    have he : ([] : List Char) ++ n ++ b = n ++ b := by simp
    rw [he]
    exact containsSubL_of_startsWithL n (n ++ b) (startsWithL_self_append n b)
  | cons c rest ih =>
    have he : (c :: rest) ++ n ++ b = c :: (rest ++ n ++ b) := by simp
    have hstep : containsSubL n (c :: (rest ++ n ++ b)) =
        (startsWithL n (c :: (rest ++ n ++ b)) || containsSubL n (rest ++ n ++ b)) := rfl
    rw [he, hstep, ih, Bool.or_true]

lemma containsSubStr_middle (n a b : String) :
    containsSubStr n (a ++ n ++ b) = true := by
  have : (a ++ n ++ b).data = a.data ++ n.data ++ b.data := by
    simp
  rw [containsSubStr, this]
  exact containsSubL_middle n.data a.data b.data

/-- C2: when the file list splits as `pre ++ bad :: post` with every file
of `pre` passing all checks and `bad` failing one of them,
`parseMultipleJsonFiles` rejects (on `bad`, the first failing file) with
an error message containing `bad`'s name, and returns no list of
records at all. -/
theorem claim_C2_fail_fast (files pre : List JsFile) (bad : JsFile)
    (post : List JsFile) (hsplit : files = pre ++ bad :: post)
    (hpre : ∀ g ∈ pre, passesAllChecks g = true)
    (hbad : passesAllChecks bad = false) :
    ∃ msg, parseMultipleJsonFiles files = Except.error msg ∧
      containsSubStr bad.name msg = true ∧
      ∀ results, parseMultipleJsonFiles files ≠ Except.ok results := by
  subst hsplit
  induction pre with
  | nil =>
    obtain ⟨inner, hinner⟩ := processFile_error_of_invalid bad hbad
    refine ⟨"Error processing " ++ bad.name ++ ": " ++ inner, ?_, ?_, ?_⟩
    · simp [parseMultipleJsonFiles, hinner]
    · have : "Error processing " ++ bad.name ++ ": " ++ inner =
          "Error processing " ++ bad.name ++ (": " ++ inner) := by
        simp [String.append_assoc]
      rw [this]
      exact containsSubStr_middle bad.name "Error processing " (": " ++ inner)
    · intro results
      simp [parseMultipleJsonFiles, hinner]
  | cons g rest ih =>
    have hg : passesAllChecks g = true := hpre g (by simp)
    have hrest : ∀ x ∈ rest, passesAllChecks x = true := fun x hx =>
      hpre x (by simp [hx])
    obtain ⟨msg, hmsg, hcontains, hnever⟩ := ih hrest
    have step : parseMultipleJsonFiles ((g :: rest) ++ bad :: post) =
        Except.error msg := by
      have h1 : parseMultipleJsonFiles ((g :: rest) ++ bad :: post) =
          (parseMultipleJsonFiles (rest ++ bad :: post)).map
            (fun rs => recordOf g :: rs) := by
        simp only [List.cons_append, parseMultipleJsonFiles,
          processFile_ok_of_valid g hg, List.append_eq]
      rw [h1, hmsg]
      rfl
    refine ⟨msg, step, hcontains, ?_⟩
    intro results
    rw [step]
    intro hcontra
    cases hcontra

/-- C2 witness: a valid file followed by a file containing invalid JSON. -/
theorem claim_C2_witness :
    ∃ msg,
      parseMultipleJsonFiles
        [⟨"good.json", "application/json", 10, "[1, 2]"⟩,
         ⟨"bad.json", "application/json", 8, "not json"⟩] = Except.error msg ∧
      containsSubStr "bad.json" msg = true ∧
      ∀ results,
        parseMultipleJsonFiles
          [⟨"good.json", "application/json", 10, "[1, 2]"⟩,
           ⟨"bad.json", "application/json", 8, "not json"⟩] ≠ Except.ok results :=
  claim_C2_fail_fast _ [⟨"good.json", "application/json", 10, "[1, 2]"⟩]
    ⟨"bad.json", "application/json", 8, "not json"⟩ [] rfl
    (by decide) (by decide)

/-- C3: when every file passes the type, size, and JSON checks,
`parseMultipleJsonFiles` returns exactly one `{filename, data, size}`
record per input file — `data` being the parse of the file's text
content — in input order (the recursion is sequential: the tail is
processed only after the head succeeds). -/
theorem claim_C3_all_valid (files : List JsFile)
    (h : ∀ f ∈ files, passesAllChecks f = true) :
    parseMultipleJsonFiles files = Except.ok (files.map recordOf) := by
  induction files with
  | nil => rfl
  | cons f rest ih =>
    have hf : passesAllChecks f = true := h f (by simp)
    have hrest : ∀ x ∈ rest, passesAllChecks x = true := fun x hx =>
      h x (by simp [hx])
    simp [parseMultipleJsonFiles, processFile_ok_of_valid f hf, ih hrest,
      Except.map]

/-- C3 witness: two concrete valid files produce their two records in
order. -/
theorem claim_C3_witness :
    parseMultipleJsonFiles
      [⟨"a.json", "application/json", 6, "[1, 2]"⟩,
       ⟨"b.json", "text/plain", 2, "\x7b\"k\": true\x7d"⟩] =
    Except.ok
      [⟨"a.json", jsArr [jsNum 1 0, jsNum 2 0], 6⟩,
       ⟨"b.json", jsObj [("k", jsBool true)], 2⟩] :=
  claim_C3_all_valid _ (by decide)

/-! ### Claim C4: DropZone per-file validation -/

lemma dropZoneValidateFiles_cons (acceptedTypes : List String)
    (maxFileSize : Nat) (f : JsFile) (rest : List JsFile) :
    dropZoneValidateFiles acceptedTypes maxFileSize (f :: rest) =
      ((dropZoneValidateFiles acceptedTypes maxFileSize rest).1,
       ⟨f.name, jsUndefined⟩ ::
         (dropZoneValidateFiles acceptedTypes maxFileSize rest).2) := by
  simp [dropZoneValidateFiles, jsGet, jsTruthy]

/-- C4 is refuted by the code: fileUtils'
`validateFileType`/`validateFileSize` return booleans, but DropZone's
`validateFiles` reads `.isValid` off those booleans — which is
`undefined`, hence falsy — so *every* file is pushed to the rejected
list with an `undefined` error message, and the accepted list is always
empty, even for a file that passes both checks. -/
theorem claim_C4_code_bug :
    (∀ acceptedTypes maxFileSize files,
      (dropZoneValidateFiles acceptedTypes maxFileSize files).1 = [] ∧
      (dropZoneValidateFiles acceptedTypes maxFileSize files).2.length
        = files.length) ∧
    validateFileType ⟨"data.json", "application/json", 100, "\x7b\x7d"⟩
      ["application/json"] = true ∧
    validateFileSize ⟨"data.json", "application/json", 100, "\x7b\x7d"⟩
      (10 * 1024 * 1024) = true ∧
    dropZoneValidateFiles ["application/json"] (10 * 1024 * 1024)
        [⟨"data.json", "application/json", 100, "\x7b\x7d"⟩] =
      ([], [⟨"data.json", jsUndefined⟩]) := by
  refine ⟨fun acceptedTypes maxFileSize files => ?_, by decide, by decide, rfl⟩
  induction files with
  | nil => exact ⟨rfl, rfl⟩
  | cons f rest ih =>
    rw [dropZoneValidateFiles_cons]
    exact ⟨ih.1, by simp [ih.2]⟩

/-! ### Claim C5: sanitizeFilename -/

lemma mem_collapseU (l : List Char) : ∀ c ∈ collapseU l, c ∈ l := by
  induction l with
  | nil => intro c hc; cases hc
  | cons x t ih =>
    cases t with
    | nil => intro c hc; exact hc
    | cons y ys =>
      intro c hc
      by_cases hxy : x = '_' ∧ y = '_'
      · have : collapseU (x :: y :: ys) = collapseU (y :: ys) := by
          simp [collapseU, hxy.1, hxy.2]
        rw [this] at hc
        exact List.mem_cons_of_mem x (ih c hc)
      · have hcond : (x = '_' && y = '_') = false := by
          rcases not_and_or.mp hxy with h | h <;> simp [h]
        have : collapseU (x :: y :: ys) = x :: collapseU (y :: ys) := by
          simp [collapseU, hcond]
        rw [this] at hc
        rcases List.mem_cons.mp hc with h | h
        · exact h ▸ List.mem_cons_self x _
        · exact List.mem_cons_of_mem x (ih c h)

lemma collapseU_cons_head (x : Char) (xs : List Char) :
    ∃ t, collapseU (x :: xs) = x :: t := by
  induction xs generalizing x with
  | nil => exact ⟨[], rfl⟩
  | cons y ys ih =>
    by_cases hxy : x = '_' ∧ y = '_'
    · obtain ⟨t, ht⟩ := ih y
      refine ⟨t, ?_⟩
      rw [show collapseU (x :: y :: ys) = collapseU (y :: ys) by
        simp [collapseU, hxy.1, hxy.2], ht, hxy.1, hxy.2]
    · have hcond : (x = '_' && y = '_') = false := by
        rcases not_and_or.mp hxy with h | h <;> simp [h]
      exact ⟨collapseU (y :: ys), by simp [collapseU, hcond]⟩

lemma noDoubleU_collapseU (l : List Char) : noDoubleU (collapseU l) = true := by
  induction l with
  | nil => rfl
  | cons x t ih =>
    cases t with
    | nil => rfl
    | cons y ys =>
      by_cases hxy : x = '_' ∧ y = '_'
      · rw [show collapseU (x :: y :: ys) = collapseU (y :: ys) by
          simp [collapseU, hxy.1, hxy.2]]
        exact ih
      · have hcond : (x = '_' && y = '_') = false := by
          rcases not_and_or.mp hxy with h | h <;> simp [h]
        rw [show collapseU (x :: y :: ys) = x :: collapseU (y :: ys) by
          simp [collapseU, hcond]]
        obtain ⟨t', ht'⟩ := collapseU_cons_head y ys
        rw [ht']
        have : noDoubleU (x :: y :: t') = (!(x = '_' && y = '_') && noDoubleU (y :: t')) := rfl
        rw [this, hcond, ← ht']
        simp [ih]

lemma noDoubleU_cons_cons (c d : Char) (t : List Char) :
    noDoubleU (c :: d :: t) = (!(c = '_' && d = '_') && noDoubleU (d :: t)) := rfl

lemma noDoubleU_of_cons (c : Char) (l : List Char)
    (h : noDoubleU (c :: l) = true) : noDoubleU l = true := by
  cases l with
  | nil => rfl
  | cons d t =>
    rw [noDoubleU_cons_cons] at h
    exact (Bool.and_eq_true _ _ ▸ h).2

lemma noDoubleU_dropLast (l : List Char) (h : noDoubleU l = true) :
    noDoubleU l.dropLast = true := by
  induction l with
  | nil => rfl
  | cons c1 t ih =>
    cases t with
    | nil => rfl
    | cons c2 t' =>
      have hpair : (!(c1 = '_' && c2 = '_')) = true := by
        rw [noDoubleU_cons_cons] at h
        exact (Bool.and_eq_true _ _ ▸ h).1
      have htail := noDoubleU_of_cons c1 _ h
      cases t' with
      | nil => rfl
      | cons d ds =>
        have ihres : noDoubleU ((c2 :: d :: ds).dropLast) = true := ih htail
        have hstep : noDoubleU ((c1 :: c2 :: d :: ds).dropLast) =
            (!(c1 = '_' && c2 = '_') && noDoubleU ((c2 :: d :: ds).dropLast)) := rfl
        rw [hstep, hpair, ihres]
        rfl

lemma head?_of_dropLast (l : List Char) (c : Char)
    (h : l.dropLast.head? = some c) : l.head? = some c := by
  cases l with
  | nil => cases h
  | cons a t =>
    cases t with
    | nil => cases h
    | cons b t' =>
      have : (a :: b :: t').dropLast = a :: (b :: t').dropLast := rfl
      rw [this] at h
      simpa using h

lemma getLast?_dropLast_ne_underscore (l : List Char)
    (hnd : noDoubleU l = true) (hlast : l.getLast? = some '_') :
    l.dropLast.getLast? ≠ some '_' := by
  induction l with
  | nil => cases hlast
  | cons c1 t ih =>
    cases t with
    | nil =>
      intro hcontra
      cases hcontra
    | cons c2 t' =>
      have hpair : (!(c1 = '_' && c2 = '_')) = true := by
        rw [noDoubleU_cons_cons] at hnd
        exact (Bool.and_eq_true _ _ ▸ hnd).1
      have htail : noDoubleU (c2 :: t') = true := noDoubleU_of_cons c1 _ hnd
      have hlast2 : (c2 :: t').getLast? = some '_' := by
        rwa [List.getLast?_cons_cons] at hlast
      cases t' with
      | nil =>
        have hc2 : c2 = '_' := by simpa using hlast2
        have hc1 : c1 ≠ '_' := by
          intro hc1
          rw [hc1, hc2] at hpair
          simp at hpair
        intro hcontra
        have : c1 = '_' := by simpa using hcontra
        exact hc1 this
      | cons d ds =>
        have ihres := ih htail hlast2
        have hstep : ((c1 :: c2 :: d :: ds).dropLast).getLast? =
            ((c2 :: d :: ds).dropLast).getLast? := by
          show (c1 :: c2 :: (d :: ds).dropLast).getLast? =
            (c2 :: (d :: ds).dropLast).getLast?
          exact List.getLast?_cons_cons
        rw [hstep]
        exact ihres

lemma head_ne_underscore_of_noDoubleU (t : List Char)
    (h : noDoubleU ('_' :: t) = true) : t.head? ≠ some '_' := by
  cases t with
  | nil => intro hcontra; cases hcontra
  | cons d ds =>
    intro hcontra
    have hd : d = '_' := by simpa using hcontra
    rw [hd, noDoubleU_cons_cons] at h
    simp at h

lemma mem_trimOuterU (l : List Char) : ∀ c ∈ trimOuterU l, c ∈ l := by
  intro c hc
  unfold trimOuterU at hc
  by_cases hh : l.head? = some '_' <;> simp only [hh, if_true, if_false] at hc
  · by_cases hl : (l.tail).getLast? = some '_' <;>
      simp only [hl, if_true, if_false] at hc
    · exact l.tail_sublist.subset (l.tail.dropLast_sublist.subset hc)
    · exact l.tail_sublist.subset hc
  · by_cases hl : l.getLast? = some '_' <;>
      simp only [hl, if_true, if_false] at hc
    · exact l.dropLast_sublist.subset hc
    · exact hc

lemma noDoubleU_tail (l : List Char) (h : noDoubleU l = true) :
    noDoubleU l.tail = true := by
  cases l with
  | nil => rfl
  | cons c t => exact noDoubleU_of_cons c t h

lemma trimOuterU_noDoubleU (l : List Char) (h : noDoubleU l = true) :
    noDoubleU (trimOuterU l) = true := by
  unfold trimOuterU
  by_cases hh : l.head? = some '_' <;> simp only [hh, if_true, if_false]
  · by_cases hl : (l.tail).getLast? = some '_' <;>
      simp only [hl, if_true, if_false]
    · exact noDoubleU_dropLast _ (noDoubleU_tail l h)
    · exact noDoubleU_tail l h
  · by_cases hl : l.getLast? = some '_' <;>
      simp only [hl, if_true, if_false]
    · exact noDoubleU_dropLast _ h
    · exact h

lemma trimOuterU_head (l : List Char) (h : noDoubleU l = true) :
    (trimOuterU l).head? ≠ some '_' := by
  unfold trimOuterU
  by_cases hh : l.head? = some '_' <;> simp only [hh, if_true, if_false]
  · obtain ⟨t, ht⟩ : ∃ t, l = '_' :: t := by
      cases l with
      | nil => cases hh
      | cons c t =>
        have : c = '_' := by simpa using hh
        exact ⟨t, by rw [this]⟩
    subst ht
    have hhead : t.head? ≠ some '_' := head_ne_underscore_of_noDoubleU t h
    by_cases hl : (('_' :: t).tail).getLast? = some '_' <;>
      simp only [hl, if_true, if_false]
    · intro hcontra
      exact hhead (head?_of_dropLast t '_' hcontra)
    · exact hhead
  · by_cases hl : l.getLast? = some '_' <;>
      simp only [hl, if_true, if_false]
    · intro hcontra
      exact hh (head?_of_dropLast l '_' hcontra)
    · exact hh

lemma trimOuterU_getLast (l : List Char) (h : noDoubleU l = true) :
    (trimOuterU l).getLast? ≠ some '_' := by
  unfold trimOuterU
  by_cases hh : l.head? = some '_' <;> simp only [hh, if_true, if_false]
  · by_cases hl : (l.tail).getLast? = some '_' <;>
      simp only [hl, if_true, if_false]
    · exact getLast?_dropLast_ne_underscore l.tail (noDoubleU_tail l h) hl
    · exact hl
  · by_cases hl : l.getLast? = some '_' <;>
      simp only [hl, if_true, if_false]
    · exact getLast?_dropLast_ne_underscore l h hl
    · exact hl

lemma mem_replaceDisallowed (l : List Char) :
    ∀ c ∈ replaceDisallowed l, isAllowedFilenameChar c = true ∨ c = '_' := by
  intro c hc
  obtain ⟨a, _, ha⟩ := List.mem_map.mp hc
  by_cases hall : isAllowedFilenameChar a = true
  · left; rw [← ha]; simp [hall]
  · right; rw [← ha]; simp [hall]

/-- C5 counterexample: `sanitizeFilename("my file!!.json")` is
`"my_file_.json"`, not the claimed `"my_file.json"`: the underscore left
of the dot is interior, and the trim step only removes underscores at
the very start and end of the string. -/
theorem claim_C5_counterexample :
    sanitizeFilename "my file!!.json" = "my_file_.json" ∧
    sanitizeFilename "my file!!.json" ≠ "my_file.json" := by
  exact ⟨rfl, by decide⟩

/-- C5 amended: `sanitizeFilename` replaces every character outside
`[a-z0-9.-]` (case-insensitive) with an underscore, collapses runs of
underscores to one, and removes a leading and a trailing underscore —
so the result contains only allowed characters and single, non-leading,
non-trailing underscores; on `"my file!!.json"` it yields
`"my_file_.json"` (the underscore before the dot is interior and is
kept). -/
theorem claim_C5_amended (s : String) :
    (∀ c ∈ (sanitizeFilename s).data, isAllowedFilenameChar c = true ∨ c = '_') ∧
    noDoubleU (sanitizeFilename s).data = true ∧
    (sanitizeFilename s).data.head? ≠ some '_' ∧
    (sanitizeFilename s).data.getLast? ≠ some '_' ∧
    sanitizeFilename "my file!!.json" = "my_file_.json" := by
  have hbase : (sanitizeFilename s).data =
      trimOuterU (collapseU (replaceDisallowed s.data)) := rfl
  have hnd : noDoubleU (collapseU (replaceDisallowed s.data)) = true :=
    noDoubleU_collapseU _
  refine ⟨?_, ?_, ?_, ?_, rfl⟩
  · intro c hc
    rw [hbase] at hc
    exact mem_replaceDisallowed _ c
      (mem_collapseU _ c (mem_trimOuterU _ c hc))
  · rw [hbase]
    exact trimOuterU_noDoubleU _ hnd
  · rw [hbase]
    exact trimOuterU_head _ hnd
  · rw [hbase]
    exact trimOuterU_getLast _ hnd

/-- C5 witness: the amended theorem applied at `"my file!!.json"`,
checking membership of a concrete character of the output. -/
theorem claim_C5_witness :
    sanitizeFilename "my file!!.json" = "my_file_.json" ∧
    (isAllowedFilenameChar 'm' = true ∨ 'm' = '_') :=
  ⟨(claim_C5_amended "my file!!.json").2.2.2.2,
   (claim_C5_amended "my file!!.json").1 'm' (by decide)⟩

/-! ### Claim C6: getFileExtension / removeFileExtension -/

lemma splitChar_ne_nil (sep : Char) (l : List Char) : splitChar sep l ≠ [] := by
  cases l with
  | nil => simp [splitChar]
  | cons c rest =>
    by_cases hc : c = sep
    · simp [splitChar, hc]
    · simp only [splitChar, hc, if_false]
      cases h : splitChar sep rest with
      | nil => simp
      | cons a t => simp

lemma splitChar_no_sep (sep : Char) (l : List Char) (h : sep ∉ l) :
    splitChar sep l = [l] := by
  induction l with
  | nil => rfl
  | cons c rest ih =>
    have hc : ¬ c = sep := fun hc => h (hc ▸ List.mem_cons_self c rest)
    have hrest : sep ∉ rest := fun hr => h (List.mem_cons_of_mem c hr)
    simp only [splitChar, hc, if_false, ih hrest]

lemma splitChar_length_two (sep : Char) (l : List Char) (h : sep ∈ l) :
    2 ≤ (splitChar sep l).length := by
  induction l with
  | nil => cases h
  | cons c rest ih =>
    by_cases hc : c = sep
    · simp only [splitChar, hc, if_true]
      have := splitChar_ne_nil sep rest
      cases hrest : splitChar sep rest with
      | nil => exact absurd hrest this
      | cons a t => simp
    · have hrest : sep ∈ rest := by
        rcases List.mem_cons.mp h with h1 | h1
        · exact absurd h1.symm hc
        · exact h1
      simp only [splitChar, hc, if_false]
      cases hsp : splitChar sep rest with
      | nil => exact absurd hsp (splitChar_ne_nil sep rest)
      | cons a t =>
        have := ih hrest
        rw [hsp] at this
        simpa using this

lemma getLastD_indep {α : Type} (l : List α) (h : l ≠ []) (d d' : α) :
    l.getLastD d = l.getLastD d' := by
  cases l with
  | nil => exact absurd rfl h
  | cons a t => rw [List.getLastD_cons, List.getLastD_cons]

lemma getLastD_splitChar_append (base ext : List Char) (h : '.' ∉ ext) :
    (splitChar '.' (base ++ '.' :: ext)).getLastD [] = ext := by
  induction base with
  | nil =>
    simp only [List.nil_append, splitChar, if_true, splitChar_no_sep '.' ext h]
    rfl
  | cons c base' ih =>
    by_cases hc : c = '.'
    · simp only [List.cons_append, splitChar, hc, if_true]
      rw [List.getLastD_cons]
      exact ih
    · have hmem : '.' ∈ base' ++ '.' :: ext := by simp
      have hlen := splitChar_length_two '.' (base' ++ '.' :: ext) hmem
      simp only [List.cons_append, splitChar, hc, if_false]
      cases hsp : splitChar '.' (base' ++ '.' :: ext) with
      | nil => exact absurd hsp (splitChar_ne_nil _ _)
      | cons a t =>
        have ht : t ≠ [] := by
          rw [hsp] at hlen
          cases t with
          | nil => simp at hlen
          | cons x xs => simp
        rw [hsp, List.getLastD_cons] at ih
        rw [List.getLastD_cons]
        rw [getLastD_indep t ht (c :: a) a]
        exact ih

lemma ifEmptyString (x : String) : (if x = "" then "" else x) = x := by
  by_cases h : x = "" <;> simp [h]

lemma getFileExtension_no_dot (s : String) (h : '.' ∉ s.data) :
    getFileExtension s = String.mk (s.data.map Char.toLower) := by
  unfold getFileExtension
  rw [splitChar_no_sep '.' s.data h]
  exact ifEmptyString _

lemma getFileExtension_append (base ext : List Char) (h : '.' ∉ ext) :
    getFileExtension (String.mk (base ++ '.' :: ext)) =
      String.mk (ext.map Char.toLower) := by
  unfold getFileExtension
  have hd : (String.mk (base ++ '.' :: ext)).data = base ++ '.' :: ext := rfl
  rw [hd, show (splitChar '.' (base ++ '.' :: ext)).getLastD [] = ext from
    getLastD_splitChar_append base ext h]
  exact ifEmptyString _

lemma findIdx?_all_false {p : Char → Bool} (l : List Char)
    (h : ∀ x ∈ l, p x = false) : l.findIdx? p = none := by
  induction l with
  | nil => rfl
  | cons c rest ih =>
    have hc : p c = false := h c (List.mem_cons_self c rest)
    have hrest : ∀ x ∈ rest, p x = false := fun x hx =>
      h x (List.mem_cons_of_mem c hx)
    simp [List.findIdx?, hc, ih hrest]

lemma findIdx?_first_hit {p : Char → Bool} (a : List Char) (y : Char)
    (b : List Char) (ha : ∀ x ∈ a, p x = false) (hy : p y = true) :
    (a ++ y :: b).findIdx? p = some a.length := by
  induction a with
  | nil => simp [List.findIdx?, hy]
  | cons c rest ih =>
    have hc : p c = false := ha c (List.mem_cons_self c rest)
    have hrest : ∀ x ∈ rest, p x = false := fun x hx =>
      ha x (List.mem_cons_of_mem c hx)
    simp [List.findIdx?, hc, ih hrest]

lemma lastIndexOfChar_not_mem (c : Char) (l : List Char) (h : c ∉ l) :
    lastIndexOfChar c l = -1 := by
  unfold lastIndexOfChar
  rw [findIdx?_all_false l.reverse (fun x hx => by
    have hmem : x ∈ l := List.mem_reverse.mp hx
    exact decide_eq_false (fun (he : x = c) => h (he ▸ hmem)))]

lemma lastIndexOfChar_append (base ext : List Char) (h : '.' ∉ ext) :
    lastIndexOfChar '.' (base ++ '.' :: ext) = Int.ofNat base.length := by
  unfold lastIndexOfChar
  have hrev : (base ++ '.' :: ext).reverse =
      ext.reverse ++ '.' :: base.reverse := by
    rw [List.reverse_append, List.reverse_cons]
    simp
  rw [hrev, findIdx?_first_hit ext.reverse '.' base.reverse
    (fun x hx =>
      decide_eq_false (fun (he : x = '.') => h (he ▸ List.mem_reverse.mp hx)))
    (by simp)]
  show Int.ofNat ((base ++ '.' :: ext).length - 1 - ext.reverse.length) =
    Int.ofNat base.length
  congr 1
  simp only [List.length_append, List.length_cons, List.length_reverse]
  omega

lemma removeFileExtension_no_dot (s : String) (h : '.' ∉ s.data) :
    removeFileExtension s = s := by
  unfold removeFileExtension
  rw [lastIndexOfChar_not_mem '.' s.data h]
  simp

lemma removeFileExtension_append (base ext : List Char) (h : '.' ∉ ext)
    (hb : base ≠ []) :
    removeFileExtension (String.mk (base ++ '.' :: ext)) = String.mk base := by
  unfold removeFileExtension
  have hd : (String.mk (base ++ '.' :: ext)).data = base ++ '.' :: ext := rfl
  rw [hd, lastIndexOfChar_append base ext h]
  have hpos : (0 : Int) < Int.ofNat base.length := by
    have h0 : 0 < base.length := List.length_pos.mpr hb
    exact Int.ofNat_pos.mpr h0
  rw [if_pos hpos]
  have ht : (Int.ofNat base.length).toNat = base.length := rfl
  rw [ht, List.take_left]

/-- C6 counterexample: `getFileExtension("noext")` returns the whole
name `"noext"`, not the claimed empty string — `split('.')` of a dotless
name yields the one-element array `["noext"]` whose `pop()` is
`"noext"`. -/
theorem claim_C6_counterexample :
    getFileExtension "noext" = "noext" ∧ getFileExtension "noext" ≠ "" := by
  exact ⟨rfl, by decide⟩

/-- C6 amended: `getFileExtension` returns the lowercased last-dot
suffix (`"archive.tar.gz"` ↦ `"gz"`), but when the filename contains no
dot it returns the whole filename lowercased (`"noext"` ↦ `"noext"`),
not the empty string; `removeFileExtension` removes the last-dot suffix
(when the dot is at a positive index) and returns a dotless name
unchanged. -/
theorem claim_C6_amended :
    getFileExtension "archive.tar.gz" = "gz" ∧
    getFileExtension "noext" = "noext" ∧
    (∀ s : String, '.' ∉ s.data →
      getFileExtension s = String.mk (s.data.map Char.toLower)) ∧
    (∀ base ext : List Char, '.' ∉ ext →
      getFileExtension (String.mk (base ++ '.' :: ext)) =
        String.mk (ext.map Char.toLower)) ∧
    (∀ s : String, '.' ∉ s.data → removeFileExtension s = s) ∧
    (∀ base ext : List Char, '.' ∉ ext → base ≠ [] →
      removeFileExtension (String.mk (base ++ '.' :: ext)) = String.mk base) :=
  ⟨rfl, rfl, getFileExtension_no_dot, getFileExtension_append,
   removeFileExtension_no_dot, removeFileExtension_append⟩

/-- C6 witness: the amended theorem applied at concrete filenames. -/
theorem claim_C6_witness :
    removeFileExtension "noext" = "noext" ∧
    getFileExtension (String.mk ("archive.tar".data ++ '.' :: "GZ".data)) =
      String.mk ("GZ".data.map Char.toLower) :=
  ⟨claim_C6_amended.2.2.2.2.1 "noext" (by decide),
   claim_C6_amended.2.2.2.1 "archive.tar".data "GZ".data (by decide)⟩

/-! ### Claim C7: conversion options pass-through -/

lemma replaceFun_eval (k : String) (v : JSTop) (k1 : String) (v1 : JSTop) :
    (if (k1, v1).1 = k then ((k, v) : String × JSTop) else (k1, v1)) =
      if k1 = k then (k, v) else (k1, v1) := rfl

lemma lookup_map_replace (rest : List (String × JSTop)) (k : String) (v : JSTop) :
    (rest.map (fun p => if p.1 = k then (k, v) else p)).lookup k =
      (rest.lookup k).map (fun _ => v) := by
  induction rest with
  | nil => rfl
  | cons p t ih =>
    obtain ⟨k1, v1⟩ := p
    rw [List.map_cons, replaceFun_eval]
    by_cases hp : k1 = k
    · subst hp
      rw [if_pos rfl]
      have hb : (k1 == k1) = true := by simp
      simp [List.lookup, hb]
    · have hne : ¬ k = k1 := fun hk => hp hk.symm
      have hb : (k == k1) = false := by simp [hne]
      rw [if_neg hp]
      simp [List.lookup, hb, ih]

lemma lookup_map_replace_other (rest : List (String × JSTop)) (k k' : String)
    (v : JSTop) (h : k' ≠ k) :
    (rest.map (fun p => if p.1 = k then (k, v) else p)).lookup k' =
      rest.lookup k' := by
  induction rest with
  | nil => rfl
  | cons p t ih =>
    obtain ⟨k1, v1⟩ := p
    rw [List.map_cons, replaceFun_eval]
    by_cases hp : k1 = k
    · subst hp
      rw [if_pos rfl]
      have hb : (k' == k1) = false := by simp [h]
      simp [List.lookup, hb, ih]
    · rw [if_neg hp]
      by_cases hk' : k' = k1
      · subst hk'
        have hb : (k' == k') = true := by simp
        simp [List.lookup, hb]
      · have hb : (k' == k1) = false := by simp [hk']
        simp [List.lookup, hb, ih]

lemma lookup_append_single (m : List (String × JSTop)) (k k' : String)
    (v : JSTop) :
    (m ++ [(k, v)]).lookup k' =
      match m.lookup k' with
      | some w => some w
      | none => List.lookup k' [(k, v)] := by
  induction m with
  | nil => rfl
  | cons p t ih =>
    obtain ⟨k1, v1⟩ := p
    by_cases hp : k' = k1
    · subst hp
      have hb : (k' == k') = true := by simp
      simp [List.lookup, hb]
    · have hb : (k' == k1) = false := by simp [hp]
      simp [List.lookup, hb, ih]

lemma lookup_setKey_self (m : List (String × JSTop)) (k : String) (v : JSTop) :
    (setKey m k v).lookup k = some v := by
  unfold setKey
  by_cases hm : (m.lookup k).isSome
  · rw [if_pos hm, lookup_map_replace]
    obtain ⟨w, hw⟩ := Option.isSome_iff_exists.mp hm
    rw [hw]
    rfl
  · rw [if_neg hm, lookup_append_single,
      Option.not_isSome_iff_eq_none.mp hm]
    simp [List.lookup]

lemma lookup_setKey_other (m : List (String × JSTop)) (k k' : String)
    (v : JSTop) (h : k' ≠ k) :
    (setKey m k v).lookup k' = m.lookup k' := by
  unfold setKey
  by_cases hm : (m.lookup k).isSome
  · rw [if_pos hm]
    exact lookup_map_replace_other m k k' v h
  · rw [if_neg hm, lookup_append_single]
    cases hr : m.lookup k' with
    | none =>
      have hb : (k' == k) = false := by simp [h]
      simp [List.lookup, hb]
    | some w => simp

lemma lookup_none_of_not_mem_keys (m : List (String × JSTop)) (k : String)
    (h : k ∉ m.map Prod.fst) : m.lookup k = none := by
  induction m with
  | nil => rfl
  | cons p t ih =>
    obtain ⟨k1, v1⟩ := p
    have hne : k ≠ k1 := fun hk => h (by simp [hk])
    have ht : k ∉ t.map Prod.fst := fun hk => h (by simp [hk])
    have hb : (k == k1) = false := by simp [hne]
    simp [List.lookup, hb, ih ht]

lemma lookup_spreadInto (o : List (String × JSTop)) (m : List (String × JSTop))
    (k : String) (h : (o.map Prod.fst).Nodup) :
    (spreadInto m o).lookup k =
      match o.lookup k with
      | some v => some v
      | none => m.lookup k := by
  induction o generalizing m with
  | nil => rfl
  | cons p rest ih =>
    obtain ⟨k0, v0⟩ := p
    have h' : (k0 :: rest.map Prod.fst).Nodup := by
      rw [List.map_cons] at h
      exact h
    have hpair := List.nodup_cons.mp h'
    have hstep : spreadInto m ((k0, v0) :: rest) =
        spreadInto (setKey m k0 v0) rest := rfl
    rw [hstep, ih (setKey m k0 v0) hpair.2]
    by_cases hkk : k = k0
    · subst hkk
      rw [lookup_none_of_not_mem_keys rest k hpair.1]
      have hb : (k == k) = true := by simp
      simp [List.lookup, hb, lookup_setKey_self]
    · have hb : (k == k0) = false := by simp [hkk]
      rw [show List.lookup k ((k0, v0) :: rest) = rest.lookup k by
        simp [List.lookup, hb]]
      cases hr : rest.lookup k with
      | some w => simp
      | none => simp [lookup_setKey_other m k0 k v0 hkk]

/-- C7: both option builders send every caller-supplied key through
verbatim (the trailing `...options` spread overrides the `|| default`
lines, so explicitly supplied falsy values such as `compressionLevel: 0`
or `createSeparateFiles: false` survive), and apply each operation's
documented default exactly when the key is absent: `compression`
"DEFLATE", `compressionLevel` 6, `createFolders` false (single
conversion), `createSeparateFiles` true and `fileNaming` "auto" (batch
conversion). -/
theorem claim_C7_options (o : List (String × JSTop))
    (h : (o.map Prod.fst).Nodup) :
    (∀ k v, o.lookup k = some v →
      (buildSingleOptions o).lookup k = some v ∧
      (buildBatchOptions o).lookup k = some v) ∧
    (o.lookup "compression" = none →
      (buildSingleOptions o).lookup "compression" = some (jsStr "DEFLATE") ∧
      (buildBatchOptions o).lookup "compression" = some (jsStr "DEFLATE")) ∧
    (o.lookup "compressionLevel" = none →
      (buildSingleOptions o).lookup "compressionLevel" = some (jsNum 6 0) ∧
      (buildBatchOptions o).lookup "compressionLevel" = some (jsNum 6 0)) ∧
    (o.lookup "createFolders" = none →
      (buildSingleOptions o).lookup "createFolders" = some (jsBool false)) ∧
    (o.lookup "createSeparateFiles" = none →
      (buildBatchOptions o).lookup "createSeparateFiles" = some (jsBool true)) ∧
    (o.lookup "fileNaming" = none →
      (buildBatchOptions o).lookup "fileNaming" = some (jsStr "auto")) := by
  have hsingle : ∀ k, (buildSingleOptions o).lookup k =
      match o.lookup k with
      | some v => some v
      | none => List.lookup k
          [("compression",
             if jsTruthy ((o.lookup "compression").getD jsUndefined)
             then (o.lookup "compression").getD jsUndefined else jsStr "DEFLATE"),
           ("compressionLevel",
             if jsTruthy ((o.lookup "compressionLevel").getD jsUndefined)
             then (o.lookup "compressionLevel").getD jsUndefined else jsNum 6 0),
           ("createFolders",
             if jsTruthy ((o.lookup "createFolders").getD jsUndefined)
             then (o.lookup "createFolders").getD jsUndefined else jsBool false)] :=
    fun k => lookup_spreadInto o _ k h
  have hbatch : ∀ k, (buildBatchOptions o).lookup k =
      match o.lookup k with
      | some v => some v
      | none => List.lookup k
          [("compression",
             if jsTruthy ((o.lookup "compression").getD jsUndefined)
             then (o.lookup "compression").getD jsUndefined else jsStr "DEFLATE"),
           ("compressionLevel",
             if jsTruthy ((o.lookup "compressionLevel").getD jsUndefined)
             then (o.lookup "compressionLevel").getD jsUndefined else jsNum 6 0),
           ("createSeparateFiles",
             if jsTruthy ((o.lookup "createSeparateFiles").getD jsUndefined)
             then (o.lookup "createSeparateFiles").getD jsUndefined else jsBool true),
           ("fileNaming",
             if jsTruthy ((o.lookup "fileNaming").getD jsUndefined)
             then (o.lookup "fileNaming").getD jsUndefined else jsStr "auto")] :=
    fun k => lookup_spreadInto o _ k h
  refine ⟨?_, ?_, ?_, ?_, ?_, ?_⟩
  · intro k v hv
    rw [hsingle k, hbatch k, hv]
    exact ⟨rfl, rfl⟩
  · intro hc
    rw [hsingle _, hbatch _, hc]
    simp [List.lookup, hc, jsTruthy]
  · intro hc
    rw [hsingle _, hbatch _, hc]
    simp [List.lookup, hc, jsTruthy]
  · intro hc
    rw [hsingle _, hc]
    simp [List.lookup, hc, jsTruthy]
  · intro hc
    rw [hbatch _, hc]
    simp [List.lookup, hc, jsTruthy]
  · intro hc
    rw [hbatch _, hc]
    simp [List.lookup, hc, jsTruthy]

/-- C7 witness: an explicitly supplied `compressionLevel: 0` and
`createSeparateFiles: false` reach the request unchanged, and an absent
`compression` key gets its default. -/
theorem claim_C7_witness :
    (buildSingleOptions [("compressionLevel", jsNum 0 0)]).lookup
      "compressionLevel" = some (jsNum 0 0) ∧
    (buildBatchOptions [("createSeparateFiles", jsBool false)]).lookup
      "createSeparateFiles" = some (jsBool false) ∧
    (buildSingleOptions [("compressionLevel", jsNum 0 0)]).lookup
      "compression" = some (jsStr "DEFLATE") :=
  ⟨((claim_C7_options [("compressionLevel", jsNum 0 0)] (by decide)).1
      "compressionLevel" (jsNum 0 0) rfl).1,
   ((claim_C7_options [("createSeparateFiles", jsBool false)] (by decide)).1
      "createSeparateFiles" (jsBool false) rfl).2,
   ((claim_C7_options [("compressionLevel", jsNum 0 0)] (by decide)).2.1
      rfl).1⟩

/-! ### Claims C8 and C9: API client error handling -/

/-- C8 counterexample: at the operation boundary a timeout and a network
failure are delivered as the *same* `ApiError` — `convertJsonToZip`'s
catch block wraps both non-`ApiError` rejections into
`ApiError('Failed to convert JSON to ZIP', 500)` — even though the raw
rejections differ, so the caller cannot distinguish them. -/
theorem claim_C8_counterexample :
    wrapOperationError "Failed to convert JSON to ZIP" timeoutRejection =
      wrapOperationError "Failed to convert JSON to ZIP" networkRejection ∧
    timeoutRejection ≠ networkRejection :=
  ⟨rfl, fun h => JsErr.noConfusion h⟩

/-- C8 amended: the timeout (default 30 s) produces
`Error('Request timeout')`, distinct from the network rejection at the
`fetchWithTimeout` level, but each operation's catch block erases the
distinction by wrapping every non-`ApiError` rejection into a generic
`ApiError(<operation message>, 500)`; consequently every failure *is*
delivered in the uniform `ApiError` shape, while timeout and network
failure are not distinguishable by the caller. -/
theorem claim_C8_amended (opMessage : String) (e : JsErr) :
    (∃ a, wrapOperationError opMessage e = JsErr.apiErr a) ∧
    REQUEST_TIMEOUT = 30000 ∧
    timeoutRejection ≠ networkRejection ∧
    wrapOperationError opMessage timeoutRejection =
      wrapOperationError opMessage networkRejection := by
  refine ⟨?_, rfl, fun h => JsErr.noConfusion h, rfl⟩
  cases e with
  | plainErr m => exact ⟨⟨jsStr opMessage, 500, jsNull⟩, rfl⟩
  | typeErr m => exact ⟨⟨jsStr opMessage, 500, jsNull⟩, rfl⟩
  | apiErr a => exact ⟨a, rfl⟩

/-- C9: for every non-2xx response, `handleResponse` throws an
`ApiError` carrying the response's HTTP status; when the content-type
indicates JSON and the body parses with a non-empty string `message`
field, that message is used and the parsed body is attached as `data`;
when the content-type does not indicate JSON, the non-empty body text is
used as the message and `data` stays `null`. -/
theorem claim_C9_handleResponse (r : HttpResponse) (hok : r.ok = false) :
    ∃ e, handleResponse r = Except.error e ∧
      e.status = r.status ∧
      (∀ j, isJsonContentType r.contentType = true →
        jsonParse r.textBody = some j →
        e.data = j ∧
        ∀ s, jsGet j "message" = jsStr s → s ≠ "" → e.message = jsStr s) ∧
      (isJsonContentType r.contentType = false →
        e.data = jsNull ∧
        (r.textBody ≠ "" → e.message = jsStr r.textBody)) := by
  by_cases hct : isJsonContentType r.contentType = true
  · cases hp : jsonParse r.textBody with
    | some j =>
      refine ⟨⟨if jsTruthy (jsGet j "message") then jsGet j "message"
               else jsStr ("HTTP error! status: " ++ toString r.status),
               r.status, j⟩, ?_, rfl, ?_, ?_⟩
      · simp [handleResponse, hok, hct, hp]
      · intro j' _ hp'
        injection hp' with hj
        subst hj
        refine ⟨rfl, ?_⟩
        intro s hs hne
        have htru : jsTruthy (jsGet j "message") = true := by
          rw [hs]
          simp [jsTruthy, hne]
        rw [if_pos htru]
        exact hs
      · intro hcontra
        rw [hct] at hcontra
        cases hcontra
    | none =>
      refine ⟨⟨jsStr ("HTTP error! status: " ++ toString r.status),
               r.status, jsNull⟩, ?_, rfl, ?_, ?_⟩
      · simp [handleResponse, hok, hct, hp]
      · intro j' _ hp'
        cases hp'
      · intro hcontra
        rw [hct] at hcontra
        cases hcontra
  · have hct' : isJsonContentType r.contentType = false :=
      Bool.not_eq_true _ ▸ (by simpa using hct)
    refine ⟨⟨jsStr (if r.textBody = "" then
               "HTTP error! status: " ++ toString r.status else r.textBody),
             r.status, jsNull⟩, ?_, rfl, ?_, ?_⟩
    · simp [handleResponse, hok, hct']
    · intro j hcontra
      rw [hct'] at hcontra
      cases hcontra
    · intro _
      refine ⟨rfl, ?_⟩
      intro hne
      simp only [hne, if_false]

/-- C9 witness: a 404 JSON error response with a `message` field. -/
theorem claim_C9_witness :
    ∃ e, handleResponse
        ⟨false, 404, some "application/json",
         "\x7b\"message\": \"Not found\"\x7d"⟩ = Except.error e ∧
      e.status = 404 ∧
      e.message = jsStr "Not found" ∧ e.data =
        jsObj [("message", jsStr "Not found")] := by
  obtain ⟨e, he, hst, hjson, _⟩ := claim_C9_handleResponse
    ⟨false, 404, some "application/json",
     "\x7b\"message\": \"Not found\"\x7d"⟩ rfl
  obtain ⟨hdata, hmsg⟩ := hjson (jsObj [("message", jsStr "Not found")])
    rfl rfl
  exact ⟨e, he, hst, hmsg "Not found" rfl (by decide), hdata⟩
